import Mathlib

set_option maxRecDepth 10000

/-!
Verification development for the JoyfulBytes daily content pipeline.

The Python sources are shallowly embedded as Lean definitions:
* JSON values (the inter-stage data contract) become the inductive `Json`,
  with Python dicts modelled as ordered association lists (insertion order),
  Python floats as `Rat`, and Python `==` as structural equality.
* Pure functions (`extract_values`, `extract_search_results`, word counting,
  feedback formatting, date parsing, archive-entry construction) become
  computable Lean functions.
* Stateful control flow (the story-selection loop, the image-generation
  attempt loop, the archive write in `main.py`) becomes explicit state
  passing, with every external call (search, scoring backend, image
  generation, image validation, page fetching, the prior archive file)
  supplied as an explicit oracle parameter, so that one Lean input describes
  one concrete behaviour of the outside world.
* Exceptions become `Option`/sum outcomes: `none` (or a dedicated
  constructor) marks the exceptional path that the corresponding Python
  `try`/`except` takes.
-/

namespace JoyfulBytes

/-! ## JSON values (`json.loads` results, search payloads, candidate records)

Python dicts are modelled as ordered lists of key/value pairs, mirroring
insertion order.  Structural equality on this type is the model of Python
`==` used for deduplication (for objects it compares the ordered field
list, which agrees with Python whenever fields occur in one fixed order). -/

inductive Json where
  | null : Json
  | bool (b : Bool) : Json
  | num (q : Rat) : Json
  | str (s : String) : Json
  | arr (items : List Json) : Json
  | obj (fields : List (String × Json)) : Json

/- Boolean structural equality on `Json` (the model of Python `==` used by
`result not in values` in `extract_search_results`). -/
mutual

def jsonBeq : Json → Json → Bool
  | .null, .null => true
  | .bool a, .bool b => a = b
  | .num a, .num b => a = b
  | .str a, .str b => a = b
  | .arr a, .arr b => jsonBeqList a b
  | .obj a, .obj b => jsonBeqFields a b
  | _, _ => false

def jsonBeqList : List Json → List Json → Bool
  | [], [] => true
  | a :: as, b :: bs => jsonBeq a b && jsonBeqList as bs
  | _, _ => false

def jsonBeqFields : List (String × Json) → List (String × Json) → Bool
  | [], [] => true
  | (ka, va) :: as, (kb, vb) :: bs => ka = kb && jsonBeq va vb && jsonBeqFields as bs
  | _, _ => false

end

mutual

theorem jsonBeq_refl : ∀ a : Json, jsonBeq a a = true
  | .null => rfl
  | .bool b => by simp [jsonBeq]
  | .num q => by simp [jsonBeq]
  | .str s => by simp [jsonBeq]
  | .arr items => by simp [jsonBeq, jsonBeqList_refl items]
  | .obj fields => by simp [jsonBeq, jsonBeqFields_refl fields]

theorem jsonBeqList_refl : ∀ l : List Json, jsonBeqList l l = true
  | [] => rfl
  | a :: as => by simp [jsonBeqList, jsonBeq_refl a, jsonBeqList_refl as]

theorem jsonBeqFields_refl : ∀ l : List (String × Json), jsonBeqFields l l = true
  | [] => rfl
  | (k, v) :: as => by simp [jsonBeqFields, jsonBeq_refl v, jsonBeqFields_refl as]

end

theorem jsonBeq_of_eq {a b : Json} (h : a = b) : jsonBeq a b = true := h ▸ jsonBeq_refl a

theorem ne_of_jsonBeq_false {a b : Json} (h : jsonBeq a b = false) : a ≠ b := by
  intro he
  rw [jsonBeq_of_eq he] at h
  exact Bool.noConfusion h

/-! ## `utils/validation.py` — `extract_values` and `extract_search_results` -/

/- `extract_values` (`utils/validation.py` lines 3-21): recursively walk a
nested structure; whenever a dict key equals `"value"` and its value is a
list, flatten that list's elements into the output; otherwise keep
recursing.  Dict fields are visited in insertion order, list items in list
order, exactly as the Python `for` loops do. -/
mutual

def extract_values : Json → List Json
  | .obj fields => extractValuesFields fields
  | .arr items => extractValuesList items
  | _ => []

def extractValuesFields : List (String × Json) → List Json
  | [] => []
  | (k, v) :: rest =>
      (match v with
       | .arr items => if k = "value" then items else extractValuesList items
       | v' => extract_values v') ++ extractValuesFields rest

def extractValuesList : List Json → List Json
  | [] => []
  | x :: rest => extract_values x ++ extractValuesList rest

end

/-- The fixed required-field set of `extract_search_results`
(`utils/validation.py` line 47). -/
def required_fields : List String :=
  ["snippet", "url", "isFamilyFriendly", "name", "datePublishedFreshnessText", "datePublished"]

/-- Char-list prefix test (used for Python substring membership). -/
def beginsWith : List Char → List Char → Bool
  | [], _ => true
  | _ :: _, [] => false
  | a :: as, b :: bs => a = b && beginsWith as bs

/-- Char-list substring test, the semantics of Python `needle in haystack`
for strings. -/
def hasSub (needle : List Char) : List Char → Bool
  | [] => beginsWith needle []
  | c :: rest => beginsWith needle (c :: rest) || hasSub needle rest

/-- Python `field in result` for a JSON value `result`: key membership for
dicts, element membership for lists, substring for strings; a `TypeError`
(modelled as `none`) for scalars. -/
def pyIn (field : String) : Json → Option Bool
  | .obj fields => some (fields.any fun kv => kv.1 = field)
  | .arr items => some (items.any fun it => jsonBeq it (.str field))
  | .str s => some (hasSub field.data s.data)
  | _ => none

/-- Conjunction of membership tests over a list of field names; `none`
models the `TypeError` Python raises when `result` supports no membership
test at all (for a given `result` every test has the same shape, so the
evaluation order of the generator expression is immaterial). -/
def allFieldsIn (result : Json) : List String → Option Bool
  | [] => some true
  | f :: rest =>
      match pyIn f result, allFieldsIn result rest with
      | some b, some c => some (b && c)
      | _, _ => none

/-- `all(field in result for field in required_fields)`
(`utils/validation.py` line 48). -/
def allRequired (result : Json) : Option Bool :=
  allFieldsIn result required_fields

/-- One iteration of the inner loop of `extract_search_results`
(`utils/validation.py` lines 46-49): append `result` when it has every
required field and is not already present (Python `result not in values`). -/
def extractStep (values : List Json) (result : Json) : Option (List Json) :=
  match allRequired result with
  | none => none
  | some ok =>
      some (if ok && !(values.any fun v => jsonBeq result v) then values ++ [result] else values)

/-- `extract_search_results` (`utils/validation.py` lines 34-51).  `none`
models an uncaught `TypeError` escaping the function. -/
def extract_search_results (search_results : List Json) : Option (List Json) :=
  search_results.foldlM (fun values sr => (extract_values sr).foldlM extractStep values) []

/-! ### Properties of extraction (claim C8) -/

theorem allFieldsIn_true {e : Json} :
    ∀ fs : List String, allFieldsIn e fs = some true → ∀ f ∈ fs, pyIn f e = some true := by
  intro fs
  induction fs with
  | nil => intro _ f hf; cases hf
  | cons g rest ih =>
      intro h f hf
      simp only [allFieldsIn] at h
      cases hg : pyIn g e with
      | none => rw [hg] at h; cases h
      | some b =>
          rw [hg] at h
          cases hr : allFieldsIn e rest with
          | none => rw [hr] at h; cases h
          | some c =>
              rw [hr] at h
              have hbc : (b && c) = true := Option.some.inj h
              have hb : b = true := (Bool.and_eq_true b c).mp hbc |>.1
              have hc : c = true := (Bool.and_eq_true b c).mp hbc |>.2
              rcases List.mem_cons.mp hf with hfg | hfr
              · rw [hfg, hg, hb]
              · exact ih (hr.trans (by rw [hc])) f hfr

/-- The invariant maintained by the accumulator of `extract_search_results`:
every accepted element passed the required-field test, and no two accepted
elements are structurally equal. -/
def GoodAcc (values : List Json) : Prop :=
  (∀ e ∈ values, allRequired e = some true) ∧ values.Nodup

theorem extractStep_inv {values out : List Json} {r : Json}
    (h : extractStep values r = some out) (hg : GoodAcc values) : GoodAcc out := by
  unfold extractStep at h
  cases hok : allRequired r with
  | none => rw [hok] at h; cases h
  | some ok =>
      rw [hok] at h
      have hout := Option.some.inj h
      by_cases hcond : (ok && !(values.any fun v => jsonBeq r v)) = true
      · rw [if_pos hcond] at hout
        have hok2 : ok = true := (Bool.and_eq_true _ _).mp hcond |>.1
        have hmem : (values.any fun v => jsonBeq r v) = false := by
          have := (Bool.and_eq_true _ _).mp hcond |>.2
          simpa using this
        have hnotin : r ∉ values := by
          intro hin
          have : jsonBeq r r = true := jsonBeq_refl r
          have : values.any (fun v => jsonBeq r v) = true :=
            List.any_eq_true.mpr ⟨r, hin, this⟩
          rw [hmem] at this; cases this
        constructor
        · intro e he
          rw [← hout] at he
          rcases List.mem_append.mp he with h1 | h2
          · exact hg.1 e h1
          · rw [List.mem_singleton.mp h2, hok, hok2]
        · rw [← hout]
          have hperm : (values ++ [r]).Perm (r :: values) := List.perm_append_singleton r values
          rw [hperm.nodup_iff, List.nodup_cons]
          exact ⟨hnotin, hg.2⟩
      · rw [if_neg hcond] at hout
        rw [← hout]; exact hg

theorem foldlM_extractStep_inv :
    ∀ (results : List Json) (values out : List Json),
      results.foldlM extractStep values = some out → GoodAcc values → GoodAcc out := by
  intro results
  induction results with
  | nil => intro values out h hg; cases Option.some.inj h; exact hg
  | cons r rest ih =>
      intro values out h hg
      rw [List.foldlM_cons] at h
      cases hstep : extractStep values r with
      | none => rw [hstep] at h; cases h
      | some v2 =>
          rw [hstep] at h
          exact ih v2 out h (extractStep_inv hstep hg)

theorem extract_search_results_inv :
    ∀ (srs : List Json) (values out : List Json),
      srs.foldlM (fun values sr => (extract_values sr).foldlM extractStep values) values
        = some out → GoodAcc values → GoodAcc out := by
  intro srs
  induction srs with
  | nil => intro values out h hg; cases Option.some.inj h; exact hg
  | cons sr rest ih =>
      intro values out h hg
      rw [List.foldlM_cons] at h
      cases hstep : (extract_values sr).foldlM extractStep values with
      | none => rw [hstep] at h; cases h
      | some v2 =>
          rw [hstep] at h
          exact ih v2 out h (foldlM_extractStep_inv (extract_values sr) values v2 hstep hg)

/-- C8: on every list of raw search payloads on which `extract_search_results`
returns, each returned element passes the membership test for all six
required fields (`snippet`, `url`, `isFamilyFriendly`, `name`,
`datePublishedFreshnessText`, `datePublished`); no two returned elements
are structurally equal; extraction is a pure function, so re-running it on
the same payload yields the same output sequence; and empty input yields
the empty sequence without error. -/
theorem C8_extraction_properties (srs out : List Json)
    (h : extract_search_results srs = some out) :
    (∀ e ∈ out, ∀ f ∈ required_fields, pyIn f e = some true) ∧
    out.Nodup ∧
    extract_search_results srs = extract_search_results srs ∧
    extract_search_results ([] : List Json) = some [] := by
  have hg : GoodAcc out :=
    extract_search_results_inv srs [] out h
      ⟨fun e he => absurd he (List.not_mem_nil e), List.nodup_nil⟩
  exact ⟨fun e he => allFieldsIn_true _ (hg.1 e he), hg.2, rfl, rfl⟩

/-- A concrete search hit carrying all six required fields. -/
def sampleHit : Json := .obj [("snippet", .str "s"), ("url", .str "https://a"),
  ("isFamilyFriendly", .bool true), ("name", .str "n"),
  ("datePublishedFreshnessText", .str "1 hour ago"), ("datePublished", .str "2024-03-05T10:15:30Z")]

/-- A payload nesting `sampleHit` twice (duplicate to be dropped) together
with an element missing the required fields. -/
def samplePayload : Json := .obj [("webPages", .obj [("value", .arr [sampleHit, sampleHit, .str "x"])])]

/-- Witness for C8 at a concrete payload: the duplicate hit is dropped, the
field-less element is filtered out, and the stated properties hold of the
output `[sampleHit]`. -/
theorem C8_extraction_properties_witness :
    (∀ e ∈ [sampleHit], ∀ f ∈ required_fields, pyIn f e = some true) ∧
    ([sampleHit] : List Json).Nodup ∧
    extract_search_results [samplePayload] = extract_search_results [samplePayload] ∧
    extract_search_results ([] : List Json) = some [] :=
  C8_extraction_properties [samplePayload] [sampleHit] rfl

/-! ## `utils/ai.py` — `batch_prompt_oai` (claim C1)

`batch_prompt_oai` submits one scoring call per prompt.  The external world
is modelled by two parameters: `oracle i` is the outcome of the call for
prompt `i` (`some r` = parsed JSON response, `none` = the call timed out or
raised or its response failed to parse, in which case `ai.py` lines 70-78
simply never record a result for that index), and `order` is the sequence
in which `as_completed` yields the futures (a permutation of the indices).
Collected results are pairs `(idx, result)`; ai.py line 81 sorts them by
`idx` and line 82 drops the indices. -/

/-- The `(idx, result)` pairs collected from `as_completed`, in completion
order, skipping failed calls (`utils/ai.py` lines 59-78). -/
def collectResults {α : Type} (order : List Nat) (oracle : Nat → Option α) : List (Nat × α) :=
  order.filterMap fun i => (oracle i).map fun r => (i, r)

/-- The sort key of `results.sort(key=lambda x: x[0])` (`utils/ai.py` line 81). -/
def keyLe {α : Type} (a b : Nat × α) : Bool := decide (a.1 ≤ b.1)

/-- `batch_prompt_oai` (`utils/ai.py` lines 17-82): collect per-index
results, sort back to original index order, return the bare results. -/
def batch_prompt_oai {α : Type} (order : List Nat) (oracle : Nat → Option α) : List α :=
  ((collectResults order oracle).mergeSort keyLe).map Prod.snd

/-- `main.py` lines 57-62: `for idx, ranking_info in enumerate(rankings)`
pairs the ranking at list position `idx` with `values[idx]`.  (Python would
raise `IndexError` were `rankings` longer than `values`; `batch_prompt_oai`
returns at most one result per prompt, so it never is, and the loop
coincides with `zip`.) -/
def stories_rankings {α β : Type} (rankings : List α) (values : List β) : List (α × β) :=
  rankings.zip values

/-! ### Order restoration for `batch_prompt_oai` -/

theorem sorted_keys_nodup_eq {α : Type} (l₁ l₂ : List (Nat × α)) (hperm : l₁.Perm l₂)
    (h₁ : l₁.Pairwise fun a b => a.1 ≤ b.1) (h₂ : l₂.Pairwise fun a b => a.1 ≤ b.1)
    (hnd : (l₁.map Prod.fst).Nodup) : l₁ = l₂ := by
  have hne₁ : l₁.Pairwise fun a b => a.1 ≠ b.1 := List.pairwise_map.mp hnd
  have hnd₂ : (l₂.map Prod.fst).Nodup := ((hperm.map Prod.fst).nodup_iff).mp hnd
  have hne₂ : l₂.Pairwise fun a b => a.1 ≠ b.1 := List.pairwise_map.mp hnd₂
  have hlt₁ : l₁.Pairwise fun a b => a.1 < b.1 :=
    (h₁.and hne₁).imp fun h => Nat.lt_of_le_of_ne h.1 h.2
  have hlt₂ : l₂.Pairwise fun a b => a.1 < b.1 :=
    (h₂.and hne₂).imp fun h => Nat.lt_of_le_of_ne h.1 h.2
  haveI : IsAntisymm (Nat × α) (fun a b => a.1 < b.1) :=
    ⟨fun a b hab hba => absurd (Nat.lt_trans hab hba) (Nat.lt_irrefl _)⟩
  exact List.eq_of_perm_of_sorted hperm hlt₁ hlt₂

theorem canonical_pairwise_lt {α : Type} (n : Nat) (oracle : Nat → Option α) :
    (collectResults (List.range n) oracle).Pairwise fun a b => a.1 < b.1 := by
  unfold collectResults
  rw [List.pairwise_filterMap]
  refine (List.pairwise_lt_range n).imp ?_
  intro i j hij b hb b' hb'
  rcases Option.map_eq_some'.mp hb with ⟨r, _, hr⟩
  rcases Option.map_eq_some'.mp hb' with ⟨r', _, hr'⟩
  rw [← hr, ← hr']
  exact hij

theorem batch_prompt_oai_eq {α : Type} (n : Nat) (order : List Nat) (oracle : Nat → Option α)
    (hperm : order.Perm (List.range n)) :
    batch_prompt_oai order oracle = (List.range n).filterMap oracle := by
  unfold batch_prompt_oai
  have hp : (collectResults order oracle).Perm (collectResults (List.range n) oracle) :=
    hperm.filterMap _
  have hms : ((collectResults order oracle).mergeSort keyLe).Perm
      (collectResults (List.range n) oracle) :=
    (List.mergeSort_perm _ _).trans hp
  have hsorted : ((collectResults order oracle).mergeSort keyLe).Pairwise
      fun a b => a.1 ≤ b.1 := by
    have := @List.sorted_mergeSort _ keyLe
      (fun a b c hab hbc => by
        simp only [keyLe, decide_eq_true_eq] at *
        exact Nat.le_trans hab hbc)
      (fun a b => by
        simp only [keyLe, Bool.or_eq_true, decide_eq_true_eq]
        exact Nat.le_total a.1 b.1)
      (collectResults order oracle)
    exact this.imp fun h => by simpa [keyLe, decide_eq_true_eq] using h
  have hcanle : (collectResults (List.range n) oracle).Pairwise fun a b => a.1 ≤ b.1 :=
    (canonical_pairwise_lt n oracle).imp Nat.le_of_lt
  have hcannd : ((collectResults (List.range n) oracle).map Prod.fst).Nodup := by
    have hpl : ((collectResults (List.range n) oracle).map Prod.fst).Pairwise (· < ·) :=
      List.pairwise_map.mpr (canonical_pairwise_lt n oracle)
    exact hpl.imp fun h => Nat.ne_of_lt h
  have hmsnd : (((collectResults order oracle).mergeSort keyLe).map Prod.fst).Nodup :=
    ((hms.map Prod.fst).nodup_iff).mpr hcannd
  rw [sorted_keys_nodup_eq _ _ hms hsorted hcanle hmsnd]
  unfold collectResults
  rw [List.map_filterMap]
  simp [Option.map_map, Function.comp]

theorem filterMap_all_some {α : Type} (oracle : Nat → Option α) :
    ∀ l : List Nat, (∀ i ∈ l, (oracle i).isSome = true) →
      (l.filterMap oracle).length = l.length ∧
      ∀ k : Nat, (l.filterMap oracle)[k]? = l[k]?.bind oracle := by
  intro l
  induction l with
  | nil => intro _; exact ⟨rfl, fun k => by simp⟩
  | cons i rest ih =>
      intro hall
      rcases Option.isSome_iff_exists.mp (hall i (List.mem_cons_self i rest)) with ⟨r, hr⟩
      have hrest := ih fun j hj => hall j (List.mem_cons_of_mem i hj)
      constructor
      · rw [List.filterMap_cons, hr]
        simpa using hrest.1
      · intro k
        rw [List.filterMap_cons, hr]
        cases k with
        | zero => simp [hr]
        | succ k => simpa using hrest.2 k

/-! ### Claim C1 -/

/-- The scoring outcome used in the C1 counterexample: the call for
candidate 0 times out (no result is collected), the call for candidate 1
returns the ranking 7. -/
def cexOracle : Nat → Option Rat := fun i => if i = 1 then some 7 else none

theorem cex_batch_eval : batch_prompt_oai [0, 1] cexOracle = [7] := by
  simp [batch_prompt_oai, collectResults, cexOracle]

/-- C1 counterexample: with two candidates where the scoring call for
candidate 0 is omitted (timeout), `stories_rankings` pairs the single
surviving ranking — produced by candidate 1 — with candidate 0, so the
claim "the result at position i is paired with the candidate that produced
it, including when some scoring calls are omitted" fails: it would require
`cexOracle 0 = some 7`, but candidate 0 produced no result at all. -/
theorem C1_pairing_counterexample :
    ¬ (∀ (i : Nat) (r : Rat) (c : String),
        (stories_rankings (batch_prompt_oai [0, 1] cexOracle) ["c0", "c1"])[i]? = some (r, c) →
        cexOracle i = some r) := by
  intro h
  have h0 := h 0 7 "c0" (by rw [cex_batch_eval]; rfl)
  simp [cexOracle] at h0

/-- C1 (amended): the ranking stage returns results in original input
order — it equals the order-preserving restriction of the per-candidate
outcomes to the successful calls, regardless of the completion order of the
worker pool — and, provided no scoring call times out or returns an
unparseable response, it returns exactly N results with the result at
position i produced by candidate i, so the pairing built at `main.py`
lines 57-62 matches each ranking with the candidate that produced it.
When some calls are omitted, only the relative order of the survivors is
preserved (the positional pairing is not). -/
theorem C1_ranking_order_pairing {α β : Type} (n : Nat) (order : List Nat)
    (oracle : Nat → Option α) (values : List β)
    (hperm : order.Perm (List.range n)) (hn : values.length = n)
    (hall : ∀ i, i < n → (oracle i).isSome = true) :
    batch_prompt_oai order oracle = (List.range n).filterMap oracle ∧
    (batch_prompt_oai order oracle).length = n ∧
    ∀ i, i < n → ∃ r c, oracle i = some r ∧ values[i]? = some c ∧
      (stories_rankings (batch_prompt_oai order oracle) values)[i]? = some (r, c) := by
  have heq := batch_prompt_oai_eq n order oracle hperm
  have hfm := filterMap_all_some oracle (List.range n)
    (fun i hi => hall i (List.mem_range.mp hi))
  refine ⟨heq, by rw [heq, hfm.1, List.length_range], ?_⟩
  intro i hi
  rcases Option.isSome_iff_exists.mp (hall i hi) with ⟨r, hr⟩
  have hvi : values[i]? = some values[i] := List.getElem?_eq_getElem (by omega)
  refine ⟨r, values[i], hr, hvi, ?_⟩
  unfold stories_rankings
  rw [List.getElem?_zip_eq_some]
  constructor
  · rw [heq, hfm.2 i, List.getElem?_range hi]
    simpa using hr
  · exact hvi

/-- Witness for the amended C1 at a concrete input: two candidates, both
scoring calls succeed, completion order reversed. -/
def witOracle : Nat → Option Rat := fun i => if i = 0 then some 3 else some 4

theorem C1_ranking_order_pairing_witness :
    batch_prompt_oai [1, 0] witOracle = (List.range 2).filterMap witOracle ∧
    (batch_prompt_oai [1, 0] witOracle).length = 2 ∧
    ∀ i, i < 2 → ∃ r c, witOracle i = some r ∧ (["a", "b"] : List String)[i]? = some c ∧
      (stories_rankings (batch_prompt_oai [1, 0] witOracle) ["a", "b"])[i]? = some (r, c) :=
  C1_ranking_order_pairing 2 [1, 0] witOracle ["a", "b"] (by decide) rfl (by decide)

/-! ## `main.py` lines 66-101 — story selection (claim C7)

Each ranked story is modelled by its numeric rank, its candidate record,
and two oracles describing the outside world for that story's URL:
`fetch` is the outcome of `get_page_text_content` (`none` = an exception
escaped and was caught at `main.py` line 91; `some text` = the returned
text, which is `""` on an ordinary request failure), and `valid` is the
boolean verdict of the `validate_webpage_content` scoring call. -/

structure StoryEnv where
  ranking : Rat
  result : List (String × Json)
  fetch : Option String
  valid : Bool

/-- Number of words of `s` as Python's `s.split()` (split on whitespace
runs, ignoring leading/trailing whitespace) counts them; `main.py` line 77
computes `len(response.strip().split())`. -/
def wordCount (s : String) : Nat :=
  (s.data.foldl
    (fun (acc : Nat × Bool) c =>
      if c.isWhitespace then (acc.1, false)
      else if acc.2 then acc else (acc.1 + 1, true))
    (0, false)).1

/-- `sorted(stories_rankings, key=lambda x: x['ranking'], reverse=True)`
(`main.py` line 67): stable descending sort by rank. -/
def rankSortDesc (stories : List StoryEnv) : List StoryEnv :=
  stories.mergeSort fun a b => decide (b.ranking ≤ a.ranking)

/-- The condition of `main.py` line 77,
`response.strip() and len(response.strip().split()) > 300`: the word-count
test subsumes nonemptiness, so the conjunction is just "more than 300
words". -/
def enoughContent (text : String) : Prop := wordCount text > 300

instance (text : String) : Decidable (enoughContent text) := by
  unfold enoughContent; infer_instance

/-- The selection loop of `main.py` lines 72-93: walk the rank-sorted
stories; on a fetch exception continue; on short content continue; on a
failed content validation continue; otherwise stop, returning the position,
the story and its fetched text. -/
def findValidStory : List StoryEnv → Option (Nat × StoryEnv × String)
  | [] => none
  | st :: rest =>
      match st.fetch with
      | none => (findValidStory rest).map fun p => (p.1 + 1, p.2)
      | some text =>
          if wordCount text > 300 then
            if st.valid then some (0, st, text)
            else (findValidStory rest).map fun p => (p.1 + 1, p.2)
          else (findValidStory rest).map fun p => (p.1 + 1, p.2)

/-- Whether a story would be selected by the loop body: its fetch returned
text of more than 300 words and the content validation passed. -/
def storyPasses (st : StoryEnv) : Prop :=
  ∃ t, st.fetch = some t ∧ wordCount t > 300 ∧ st.valid = true

theorem findValidStory_spec :
    ∀ stories : List StoryEnv, ∀ i st text,
      findValidStory stories = some (i, st, text) →
      stories[i]? = some st ∧ st.fetch = some text ∧ wordCount text > 300 ∧
        st.valid = true ∧
        ∀ j, j < i → ∀ st', stories[j]? = some st' → ¬ storyPasses st' := by
  intro stories
  induction stories with
  | nil => intro i st text h; cases h
  | cons hd rest ih =>
      intro i st text h
      unfold findValidStory at h
      have skipCase :
          (findValidStory rest).map (fun p => (p.1 + 1, p.2)) = some (i, st, text) →
          ¬ storyPasses hd →
          (hd :: rest)[i]? = some st ∧ st.fetch = some text ∧ wordCount text > 300 ∧
            st.valid = true ∧
            ∀ j, j < i → ∀ st', (hd :: rest)[j]? = some st' → ¬ storyPasses st' := by
        intro hm hnp
        rcases Option.map_eq_some'.mp hm with ⟨⟨i', st2, text2⟩, hrec, heq⟩
        obtain ⟨hi, hst, htext⟩ : i = i' + 1 ∧ st = st2 ∧ text = text2 := by
          cases heq; exact ⟨rfl, rfl, rfl⟩
        subst hi hst htext
        obtain ⟨h1, h2, h3, h4, h5⟩ := ih i' st text hrec
        refine ⟨by simpa using h1, h2, h3, h4, ?_⟩
        intro j hj st' hst' hp
        cases j with
        | zero =>
            have hshd : hd = st' := by simpa using hst'
            exact hnp (hshd.symm ▸ hp)
        | succ j' =>
            exact h5 j' (by omega) st' (by simpa using hst') hp
      cases hf : hd.fetch with
      | none =>
          rw [hf] at h
          exact skipCase h (by rintro ⟨t, ht, _⟩; rw [hf] at ht; cases ht)
      | some t0 =>
          have h' : (if wordCount t0 > 300 then
                (if hd.valid = true then some ((0 : Nat), hd, t0)
                 else (findValidStory rest).map fun p => (p.1 + 1, p.2))
              else (findValidStory rest).map fun p => (p.1 + 1, p.2))
              = some (i, st, text) := by
            rw [hf] at h; exact h
          by_cases hwc : wordCount t0 > 300
          · rw [if_pos hwc] at h'
            by_cases hv : hd.valid = true
            · rw [if_pos hv] at h'
              obtain ⟨hi, hst, htext⟩ : i = 0 ∧ st = hd ∧ text = t0 := by
                cases h'; exact ⟨rfl, rfl, rfl⟩
              subst hi hst htext
              exact ⟨by simp, hf, hwc, hv, fun j hj => absurd hj (Nat.not_lt_zero j)⟩
            · rw [if_neg hv] at h'
              refine skipCase h' ?_
              rintro ⟨t, ht, _, hv'⟩
              exact hv hv'
          · rw [if_neg hwc] at h'
            refine skipCase h' ?_
            rintro ⟨t, ht, hwc', _⟩
            rw [hf] at ht
            cases ht
            exact hwc hwc'

/-! ## `main.py` lines 103-223 — the image generation loop (claims C2, C3, C5, C6)

Loop constants from `main.py` lines 105-106. -/

def image_gen_attempts : Nat := 5

def score_threshold : Rat := 8

/-- A per-criterion score mapping parsed from the validator's JSON response
(a Python dict, i.e. an ordered association list of criterion name and
score). -/
abbrev Scores := List (String × Rat)

/-- Outcome of `validate_generated_image` (`utils/ai.py` lines 364-440):
`raised` = an exception escaped the call (e.g. the image bytes were not
even encodable) and is caught at `main.py` line 220; `nonDict` = the call
itself caught an error and returned the `"<|Error validating image: ...|>"`
string (or any other non-dict value), which fails the `isinstance(...,
dict)` test at `main.py` line 140; `parsed scores` = a JSON dict of
criterion scores. -/
inductive ValidationOutcome where
  | raised : ValidationOutcome
  | nonDict : ValidationOutcome
  | parsed (scores : Scores) : ValidationOutcome

/-- The outside world of one loop iteration: whether the prompt-building
call produced a usable `full_prompt` (otherwise an exception — empty batch
result or missing key — is caught at `main.py` line 220), the outcome of
`generate_image` (`none` = raised), and the outcome of
`validate_generated_image`.  Image bytes are abstracted as `Nat` tokens. -/
structure AttemptEnv where
  promptOk : Bool
  genResult : Option Nat
  validation : ValidationOutcome

/-- `overall_mean` (`main.py` lines 146-147):
`sum(all_scores)/len(all_scores) if all_scores else 0`. -/
def overall_mean (scores : Scores) : Rat :=
  if scores = [] then 0 else (scores.map Prod.snd).sum / (scores.length : Rat)

/-- What one iteration of the attempt loop does, as a function of that
iteration's external outcomes (`main.py` lines 113-223). -/
inductive AttemptStep where
  | errored : AttemptStep
  | notDict : AttemptStep
  | lowScore (scores : Scores) : AttemptStep
  | accepted (img : Nat) : AttemptStep

def attemptStep (env : AttemptEnv) : AttemptStep :=
  if env.promptOk = false then .errored
  else
    match env.genResult with
    | none => .errored
    | some img =>
        match env.validation with
        | .raised => .errored
        | .nonDict => .notDict
        | .parsed scores =>
            if overall_mean scores > score_threshold then .accepted img
            else .lowScore scores

/-- Trace of one run of the attempt loop: the value of the `feedback`
variable at the start of each performed attempt, the number of performed
attempts, the accepted attempt (number and image bytes) if any, and the
image files persisted under `./data/images` as (attempt, bytes) pairs. -/
structure LoopOutcome where
  promptFeedbacks : List (Option Scores)
  attemptsMade : Nat
  accepted : Option (Nat × Nat)
  savedImages : List (Nat × Nat)

/-- The `for attempt in range(1, image_gen_attempts + 1)` loop
(`main.py` line 110), recursing on the remaining budget; `k` is the current
attempt number, `fb` the current `feedback` value.  On acceptance the image
is saved and the loop `break`s (line 215); on a dict result below threshold
`feedback = image_validation` (line 218); on a non-dict result nothing
happens and the loop proceeds; on a caught exception `feedback = None`
(line 222). -/
def imageLoopAux (envs : Nat → AttemptEnv) : Nat → Nat → Option Scores → LoopOutcome
  | 0, _, _ => ⟨[], 0, none, []⟩
  | remaining + 1, k, fb =>
      match attemptStep (envs k) with
      | .accepted img => ⟨[fb], 1, some (k, img), [(k, img)]⟩
      | .errored =>
          let r := imageLoopAux envs remaining (k + 1) none
          ⟨fb :: r.promptFeedbacks, r.attemptsMade + 1, r.accepted, r.savedImages⟩
      | .notDict =>
          let r := imageLoopAux envs remaining (k + 1) fb
          ⟨fb :: r.promptFeedbacks, r.attemptsMade + 1, r.accepted, r.savedImages⟩
      | .lowScore scores =>
          let r := imageLoopAux envs remaining (k + 1) (some scores)
          ⟨fb :: r.promptFeedbacks, r.attemptsMade + 1, r.accepted, r.savedImages⟩

/-- The full loop: budget `image_gen_attempts`, first attempt number 1,
initial `feedback = None` (`main.py` line 108). -/
def imageLoop (envs : Nat → AttemptEnv) : LoopOutcome :=
  imageLoopAux envs image_gen_attempts 1 none

/-- An attempt accepts exactly when its external outcomes let execution
reach `main.py` line 153 with a parsed score dict whose overall mean is
strictly above the threshold. -/
def attemptAccepts (env : AttemptEnv) : Prop :=
  env.promptOk = true ∧ ∃ img, env.genResult = some img ∧
    ∃ scores, env.validation = .parsed scores ∧ overall_mean scores > score_threshold

theorem attemptStep_accepted_iff (env : AttemptEnv) :
    (∃ img, attemptStep env = .accepted img ∧ env.genResult = some img) ↔ attemptAccepts env := by
  unfold attemptStep attemptAccepts
  constructor
  · rintro ⟨img, hstep, hgen⟩
    by_cases hp : env.promptOk = false
    · rw [if_pos hp] at hstep; cases hstep
    · rw [if_neg hp] at hstep
      refine ⟨by revert hp; cases env.promptOk <;> simp, img, hgen, ?_⟩
      rw [hgen] at hstep
      cases hval : env.validation with
      | raised => rw [hval] at hstep; cases hstep
      | nonDict => rw [hval] at hstep; cases hstep
      | parsed scores =>
          rw [hval] at hstep
          by_cases hm : overall_mean scores > score_threshold
          · exact ⟨scores, rfl, hm⟩
          · have hstep' : (if overall_mean scores > score_threshold
                then AttemptStep.accepted img else AttemptStep.lowScore scores)
                = AttemptStep.accepted img := hstep
            rw [if_neg hm] at hstep'; cases hstep'
  · rintro ⟨hp, img, hgen, scores, hval, hm⟩
    refine ⟨img, ?_, hgen⟩
    rw [if_neg (by rw [hp]; exact fun h => Bool.noConfusion h), hgen, hval]
    show (if overall_mean scores > score_threshold
        then AttemptStep.accepted img else AttemptStep.lowScore scores)
        = AttemptStep.accepted img
    rw [if_pos hm]

theorem not_attemptAccepts_of_step {env : AttemptEnv}
    (h : ∀ img, attemptStep env ≠ .accepted img) : ¬ attemptAccepts env := by
  intro hacc
  rcases (attemptStep_accepted_iff env).mpr hacc with ⟨img, hstep, _⟩
  exact h img hstep

theorem attemptStep_accepted_genResult {env : AttemptEnv} {img : Nat}
    (hstep : attemptStep env = .accepted img) : env.genResult = some img := by
  unfold attemptStep at hstep
  split at hstep
  · cases hstep
  · split at hstep
    · cases hstep
    · split at hstep
      · cases hstep
      · cases hstep
      · split at hstep
        · cases hstep
          assumption
        · cases hstep

theorem imageLoopAux_accept_spec (envs : Nat → AttemptEnv) :
    ∀ (remaining k j img : Nat) (fb : Option Scores),
      (imageLoopAux envs remaining k fb).accepted = some (j, img) →
      k ≤ j ∧ j < k + remaining ∧
      (imageLoopAux envs remaining k fb).attemptsMade = j + 1 - k ∧
      (imageLoopAux envs remaining k fb).savedImages = [(j, img)] ∧
      attemptAccepts (envs j) ∧ (envs j).genResult = some img ∧
      ∀ m, k ≤ m → m < j → ¬ attemptAccepts (envs m) := by
  intro remaining
  induction remaining with
  | zero => intro k j img fb h; cases h
  | succ rem ih =>
      intro k j img fb h
      cases hstep : attemptStep (envs k) with
      | accepted img0 =>
          simp only [imageLoopAux, hstep] at h ⊢
          obtain ⟨hj, himg⟩ : j = k ∧ img = img0 := by cases h; exact ⟨rfl, rfl⟩
          have hgen : (envs k).genResult = some img0 := attemptStep_accepted_genResult hstep
          have hacc : attemptAccepts (envs k) :=
            (attemptStep_accepted_iff (envs k)).mp ⟨img0, hstep, hgen⟩
          exact ⟨by omega, by omega, by omega, by rw [hj, himg],
            by rw [hj]; exact hacc, by rw [hj, himg]; exact hgen,
            fun m h1 h2 => ((by omega : False)).elim⟩
      | errored =>
          simp only [imageLoopAux, hstep] at h ⊢
          obtain ⟨h1, h2, h3, h4, h5, h6, h7⟩ := ih (k + 1) j img none h
          refine ⟨by omega, by omega, by omega, h4, h5, h6, ?_⟩
          intro m hm1 hm2
          rcases Nat.eq_or_lt_of_le hm1 with hmk | hmk
          · subst hmk
            exact not_attemptAccepts_of_step fun i hi => by rw [hstep] at hi; cases hi
          · exact h7 m hmk hm2
      | notDict =>
          simp only [imageLoopAux, hstep] at h ⊢
          obtain ⟨h1, h2, h3, h4, h5, h6, h7⟩ := ih (k + 1) j img fb h
          refine ⟨by omega, by omega, by omega, h4, h5, h6, ?_⟩
          intro m hm1 hm2
          rcases Nat.eq_or_lt_of_le hm1 with hmk | hmk
          · subst hmk
            exact not_attemptAccepts_of_step fun i hi => by rw [hstep] at hi; cases hi
          · exact h7 m hmk hm2
      | lowScore scores =>
          simp only [imageLoopAux, hstep] at h ⊢
          obtain ⟨h1, h2, h3, h4, h5, h6, h7⟩ := ih (k + 1) j img (some scores) h
          refine ⟨by omega, by omega, by omega, h4, h5, h6, ?_⟩
          intro m hm1 hm2
          rcases Nat.eq_or_lt_of_le hm1 with hmk | hmk
          · subst hmk
            exact not_attemptAccepts_of_step fun i hi => by rw [hstep] at hi; cases hi
          · exact h7 m hmk hm2

theorem imageLoopAux_noaccept_spec (envs : Nat → AttemptEnv) :
    ∀ (remaining k : Nat) (fb : Option Scores),
      (imageLoopAux envs remaining k fb).accepted = none →
      (imageLoopAux envs remaining k fb).attemptsMade = remaining ∧
      (imageLoopAux envs remaining k fb).savedImages = [] ∧
      ∀ m, k ≤ m → m < k + remaining → ¬ attemptAccepts (envs m) := by
  intro remaining
  induction remaining with
  | zero =>
      intro k fb _
      exact ⟨rfl, rfl, fun m h1 h2 => ((by omega : False)).elim⟩
  | succ rem ih =>
      intro k fb h
      cases hstep : attemptStep (envs k) with
      | accepted img0 =>
          simp only [imageLoopAux, hstep] at h
          exact Option.noConfusion h
      | errored =>
          simp only [imageLoopAux, hstep] at h ⊢
          obtain ⟨h1, h2, h3⟩ := ih (k + 1) none h
          refine ⟨by omega, h2, ?_⟩
          intro m hm1 hm2
          rcases Nat.eq_or_lt_of_le hm1 with hmk | hmk
          · subst hmk
            exact not_attemptAccepts_of_step fun i hi => by rw [hstep] at hi; cases hi
          · exact h3 m hmk (by omega)
      | notDict =>
          simp only [imageLoopAux, hstep] at h ⊢
          obtain ⟨h1, h2, h3⟩ := ih (k + 1) fb h
          refine ⟨by omega, h2, ?_⟩
          intro m hm1 hm2
          rcases Nat.eq_or_lt_of_le hm1 with hmk | hmk
          · subst hmk
            exact not_attemptAccepts_of_step fun i hi => by rw [hstep] at hi; cases hi
          · exact h3 m hmk (by omega)
      | lowScore scores =>
          simp only [imageLoopAux, hstep] at h ⊢
          obtain ⟨h1, h2, h3⟩ := ih (k + 1) (some scores) h
          refine ⟨by omega, h2, ?_⟩
          intro m hm1 hm2
          rcases Nat.eq_or_lt_of_le hm1 with hmk | hmk
          · subst hmk
            exact not_attemptAccepts_of_step fun i hi => by rw [hstep] at hi; cases hi
          · exact h3 m hmk (by omega)

/-- How one non-accepting attempt transforms the `feedback` variable
(`main.py` lines 218 and 222): a caught exception resets it to `None`, a
non-dict validation result leaves it unchanged, a below-threshold score
dict replaces it with that dict. -/
def nextFeedback (env : AttemptEnv) (fb : Option Scores) : Option Scores :=
  match attemptStep env with
  | .errored => none
  | .notDict => fb
  | .lowScore scores => some scores
  | .accepted _ => fb

theorem imageLoopAux_trace_head (envs : Nat → AttemptEnv) (remaining k : Nat)
    (fb : Option Scores) (h : 0 < remaining) :
    (imageLoopAux envs remaining k fb).promptFeedbacks[0]? = some fb := by
  cases remaining with
  | zero => omega
  | succ rem =>
      cases hstep : attemptStep (envs k) <;> simp only [imageLoopAux, hstep] <;> simp

theorem imageLoopAux_trace_len (envs : Nat → AttemptEnv) :
    ∀ (remaining k : Nat) (fb : Option Scores),
      (imageLoopAux envs remaining k fb).promptFeedbacks.length
        = (imageLoopAux envs remaining k fb).attemptsMade := by
  intro remaining
  induction remaining with
  | zero => intro k fb; rfl
  | succ rem ih =>
      intro k fb
      cases hstep : attemptStep (envs k) <;> simp only [imageLoopAux, hstep] <;>
        simp [ih (k + 1)]

theorem imageLoopAux_trace_step (envs : Nat → AttemptEnv) :
    ∀ (remaining k j : Nat) (fb : Option Scores),
      j + 1 < (imageLoopAux envs remaining k fb).promptFeedbacks.length →
      ∃ f, (imageLoopAux envs remaining k fb).promptFeedbacks[j]? = some f ∧
        (imageLoopAux envs remaining k fb).promptFeedbacks[j + 1]?
          = some (nextFeedback (envs (k + j)) f) := by
  intro remaining
  induction remaining with
  | zero => intro k j fb h; simp [imageLoopAux] at h
  | succ rem ih =>
      intro k j fb h
      cases hstep : attemptStep (envs k) with
      | accepted img0 =>
          simp only [imageLoopAux, hstep] at h
          simp at h
      | errored =>
          simp only [imageLoopAux, hstep] at h ⊢
          cases j with
          | zero =>
              have hlen : 0 < (imageLoopAux envs rem (k + 1) none).promptFeedbacks.length := by
                simpa using h
              have hrem : 0 < rem := by
                by_contra h0
                have : rem = 0 := by omega
                subst this
                simp [imageLoopAux] at hlen
              refine ⟨fb, by simp, ?_⟩
              have := imageLoopAux_trace_head envs rem (k + 1) none hrem
              simpa [nextFeedback, hstep] using this
          | succ j' =>
              have h' : j' + 1 < (imageLoopAux envs rem (k + 1) none).promptFeedbacks.length := by
                simpa using h
              obtain ⟨f, hf1, hf2⟩ := ih (k + 1) j' none h'
              refine ⟨f, by simpa using hf1, ?_⟩
              have : k + 1 + j' = k + (j' + 1) := by omega
              rw [← this]
              simpa using hf2
      | notDict =>
          simp only [imageLoopAux, hstep] at h ⊢
          cases j with
          | zero =>
              have hlen : 0 < (imageLoopAux envs rem (k + 1) fb).promptFeedbacks.length := by
                simpa using h
              have hrem : 0 < rem := by
                by_contra h0
                have : rem = 0 := by omega
                subst this
                simp [imageLoopAux] at hlen
              refine ⟨fb, by simp, ?_⟩
              have := imageLoopAux_trace_head envs rem (k + 1) fb hrem
              simpa [nextFeedback, hstep] using this
          | succ j' =>
              have h' : j' + 1 < (imageLoopAux envs rem (k + 1) fb).promptFeedbacks.length := by
                simpa using h
              obtain ⟨f, hf1, hf2⟩ := ih (k + 1) j' fb h'
              refine ⟨f, by simpa using hf1, ?_⟩
              have : k + 1 + j' = k + (j' + 1) := by omega
              rw [← this]
              simpa using hf2
      | lowScore scores =>
          simp only [imageLoopAux, hstep] at h ⊢
          cases j with
          | zero =>
              have hlen : 0 < (imageLoopAux envs rem (k + 1) (some scores)).promptFeedbacks.length := by
                simpa using h
              have hrem : 0 < rem := by
                by_contra h0
                have : rem = 0 := by omega
                subst this
                simp [imageLoopAux] at hlen
              refine ⟨fb, by simp, ?_⟩
              have := imageLoopAux_trace_head envs rem (k + 1) (some scores) hrem
              simpa [nextFeedback, hstep] using this
          | succ j' =>
              have h' : j' + 1 < (imageLoopAux envs rem (k + 1) (some scores)).promptFeedbacks.length := by
                simpa using h
              obtain ⟨f, hf1, hf2⟩ := ih (k + 1) j' (some scores) h'
              refine ⟨f, by simpa using hf1, ?_⟩
              have : k + 1 + j' = k + (j' + 1) := by omega
              rw [← this]
              simpa using hf2

/-! ## Feedback formatting and prompt construction (claim C6) -/

/-- `k.replace('_', ' ')` (`main.py` line 119); for a one-character pattern
Python's substring replace is a character map. -/
def underscoreToSpace (s : String) : String :=
  String.mk (s.data.map fun c => if c = '_' then ' ' else c)

/-- `main.py` lines 115-123: when `feedback` is a truthy dict (i.e. a
nonempty one — an empty dict is falsy), build
`{"improvements_needed": ["Improve <criterion>" for criteria scoring
strictly below the threshold]}`; otherwise keep `formatted_feedback =
None`.  Only the directive list is carried, the fixed dict key being
constant. -/
def formatted_feedback (feedback : Option Scores) : Option (List String) :=
  match feedback with
  | none => none
  | some scores =>
      if scores = [] then none
      else some ((scores.filter fun kv => kv.2 < score_threshold).map
        fun kv => "Improve " ++ underscoreToSpace kv.1)

/-- The feedback-dependent structure of the prompt built by
`create_image_gen_prompt` (`utils/ai.py` lines 192-240): the story text,
whether the `# BEFORE GENERATING IMAGE` block was appended (`if feedback:`
at line 227 — the `improvements_needed` dict is nonempty, hence truthy,
whenever it exists), and the improvement directives embedded in that
block's JSON dump. -/
structure GenPrompt where
  story : String
  feedbackBlockAdded : Bool
  improvementDirectives : List String

def create_image_gen_prompt (story : String) (feedback : Option (List String)) : GenPrompt :=
  match feedback with
  | none => ⟨story, false, []⟩
  | some dirs => ⟨story, true, dirs⟩

/-! ## `main.py` lines 162-213 — the archive writer (claims C4, C9, C10) -/

/-- Association-list lookup, the model of Python dict subscripting /
`dict.get` on records parsed from JSON (first occurrence wins; dicts from
`json.loads` have unique keys). -/
def dictGet (d : List (String × Json)) (k : String) : Option Json :=
  (d.find? fun kv => kv.1 = k).map fun kv => kv.2

/-- Python `d[k] = v`: update the existing key in place (keeping its
position) or append a new one; keys are unique in dicts parsed from JSON,
so updating the first occurrence is exact. -/
def dictSet : List (String × Json) → String → Json → List (String × Json)
  | [], k, v => [(k, v)]
  | kv :: rest, k, v => if kv.1 = k then (k, v) :: rest else kv :: dictSet rest k v

/-- `{**base, **extra}`-style merge: fields of `extra` are written over
`base` one at a time, in order. -/
def dictMerge (base : List (String × Json)) (extra : List (String × Json)) :
    List (String × Json) :=
  extra.foldl (fun acc kv => dictSet acc kv.1 kv.2) base

/-! ### Date parsing (`main.py` lines 186-197)

`datetime.strptime` with the three fixed patterns
`%Y-%m-%dT%H:%M:%S.%fZ`, `%Y-%m-%dT%H:%M:%SZ` and `%Y-%m-%d` (the last on
`date_str.split('T')[0]`), then `strftime("%B %d, %Y")`. -/

def digitVal (c : Char) : Option Nat :=
  if c.isDigit then some (c.toNat - 48) else none

/-- Read exactly `n` digits from the front, returning their value and the
rest. -/
def readDigits : Nat → List Char → Option (Nat × List Char)
  | 0, cs => some (0, cs)
  | _ + 1, [] => none
  | n + 1, c :: cs => do
      let d ← digitVal c
      let (v, rest) ← readDigits n cs
      return (d * (10 ^ n) + v, rest)

def isLeapYear (y : Nat) : Bool :=
  (y % 4 = 0 && y % 100 ≠ 0) || y % 400 = 0

def daysInMonth (y m : Nat) : Nat :=
  if m = 2 then (if isLeapYear y then 29 else 28)
  else if m = 4 || m = 6 || m = 9 || m = 11 then 30
  else 31

/-- Parse `YYYY-MM-DD` from the front of a char list, validating the date
as `datetime` does; returns the date and the remaining characters. -/
def readYmd (cs : List Char) : Option ((Nat × Nat × Nat) × List Char) := do
  let (y, r1) ← readDigits 4 cs
  match r1 with
  | '-' :: r2 => do
      let (m, r3) ← readDigits 2 r2
      match r3 with
      | '-' :: r4 => do
          let (d, r5) ← readDigits 2 r4
          if 1 ≤ m ∧ m ≤ 12 ∧ 1 ≤ d ∧ d ≤ daysInMonth y m then return ((y, m, d), r5)
          else none
      | _ => none
  | _ => none

/-- Parse `HH:MM:SS` from the front. -/
def readHms (cs : List Char) : Option (List Char) := do
  let (h, r1) ← readDigits 2 cs
  match r1 with
  | ':' :: r2 => do
      let (mi, r3) ← readDigits 2 r2
      match r3 with
      | ':' :: r4 => do
          let (s, r5) ← readDigits 2 r4
          if h ≤ 23 ∧ mi ≤ 59 ∧ s ≤ 59 then return r5 else none
      | _ => none
  | _ => none

/-- One to six fractional-second digits (`%f`). -/
def readFrac : List Char → Option (List Char)
  | c :: cs =>
      if (digitVal c).isSome then
        some (cs.dropWhile fun c' => (digitVal c').isSome)
      else none
  | [] => none

/-- `strptime(date_str, "%Y-%m-%dT%H:%M:%S.%fZ")`, keeping only the date. -/
def parseFullIso (cs : List Char) : Option (Nat × Nat × Nat) := do
  let (ymd, r1) ← readYmd cs
  match r1 with
  | 'T' :: r2 => do
      let r3 ← readHms r2
      match r3 with
      | '.' :: r4 => do
          let r5 ← readFrac r4
          match r5 with
          | ['Z'] => return ymd
          | _ => none
      | _ => none
  | _ => none

/-- `strptime(date_str, "%Y-%m-%dT%H:%M:%SZ")`, keeping only the date. -/
def parseSecIso (cs : List Char) : Option (Nat × Nat × Nat) := do
  let (ymd, r1) ← readYmd cs
  match r1 with
  | 'T' :: r2 => do
      let r3 ← readHms r2
      match r3 with
      | ['Z'] => return ymd
      | _ => none
  | _ => none

/-- `strptime(s, "%Y-%m-%d")`: the whole string must be a valid date. -/
def parseYmdOnly (cs : List Char) : Option (Nat × Nat × Nat) := do
  let (ymd, r1) ← readYmd cs
  match r1 with
  | [] => return ymd
  | _ => none

def monthName : Nat → String
  | 1 => "January" | 2 => "February" | 3 => "March" | 4 => "April"
  | 5 => "May" | 6 => "June" | 7 => "July" | 8 => "August"
  | 9 => "September" | 10 => "October" | 11 => "November" | 12 => "December"
  | _ => ""

def pad2 (n : Nat) : String :=
  if n < 10 then "0" ++ toString n else toString n

/-- `strftime("%B %d, %Y")`. -/
def formatDate : Nat × Nat × Nat → String
  | (y, m, d) => monthName m ++ " " ++ pad2 d ++ ", " ++ toString y

/-- `date_str.split('T')[0]`. -/
def takeBeforeT (cs : List Char) : List Char :=
  cs.takeWhile fun c => c ≠ 'T'

/-- The three-way fallback of `main.py` lines 188-197, producing the
display date string, or `none` when every format fails (`ValueError`
escaping to the `except` at line 212). -/
def parseDisplayDate (s : String) : Option String :=
  match parseFullIso s.data with
  | some ymd => some (formatDate ymd)
  | none =>
      match parseSecIso s.data with
      | some ymd => some (formatDate ymd)
      | none => (parseYmdOnly (takeBeforeT s.data)).map formatDate

/-- `output_filename` (`main.py` line 157):
`./data/images/{run_start_time}-{attempt}.png`. -/
def output_filename (runStartTime : String) (attempt : Nat) : String :=
  "./data/images/" ++ runStartTime ++ "-" ++ toString attempt ++ ".png"

/-- The archive entry built at `main.py` lines 179-205, or `none` when an
exception (missing/non-string `datePublished`, an unparseable date, a
`None` or key-less summary, a missing `url`) escapes to the `except` at
line 212 and the write is abandoned.  `top` is `rankings_stories[0]` (the
highest-ranked candidate), `chosen` the selected story.  (Lines 180-184
compute a `date_value` that is never used afterwards; it is omitted.) -/
def mkEntry (top chosen : StoryEnv) (summary : Option Json) (runStartTime : String)
    (attempt : Nat) : Option (List (String × Json)) :=
  match dictGet top.result "datePublished" with
  | some (.str ds) =>
      match parseDisplayDate ds with
      | some fd =>
          match summary.bind fun s =>
              match s with
              | .obj fs => dictGet fs "summary"
              | _ => none with
          | some sv =>
              match dictGet chosen.result "url" with
              | some uv =>
                  some (dictMerge
                    [("date", .str fd),
                     ("image_path", .str (output_filename runStartTime attempt)),
                     ("story_summary", sv),
                     ("story_url", uv)]
                    chosen.result)
              | none => none
          | none => none
      | none => none
  | _ => none

/-! ## The run as a whole (`main.py` lines 66-224) -/

/-- One run's external world: the ranked stories (the `stories_rankings`
list of `main.py` line 57, each with its fetch/validation oracles), the
parsed result of the single `summarize_webpage` call (`None` when the
scoring call fails), the per-attempt image-loop oracles, the prior content
of `./data/generated-map.json` (`none` = the file does not exist), the
run's local date key (line 165) and the run start timestamp (line 30). -/
structure RunEnv where
  stories : List StoryEnv
  summaryResult : Option Json
  attemptEnvs : Nat → AttemptEnv
  priorMap : Option (List (String × Json))
  runDate : String
  runStartTime : String

/-- Observable outcome of a run: the process exit status (`sys.exit(1)` at
line 97, otherwise the script falls off the end of the module with status
0), the chosen story, the text handed to `summarize_webpage`, the image
loop trace, the bytes written to `./data/most-recent-image.png` (if any)
and the archive document written back (if any). -/
structure RunOutcome where
  exitCode : Nat
  chosen : Option (Nat × StoryEnv × String)
  summarizedText : Option String
  loopRun : Option LoopOutcome
  mostRecentWritten : Option Nat
  archiveDoc : Option (List (String × Json))

/-- `main.py` lines 66-224.  Sort by descending rank (line 67), select the
first usable story (lines 72-97, exiting with status 1 when none is found),
summarize it (line 101), run the image loop (lines 110-223); on acceptance
perform the archive block (lines 162-213): the most-recent image copy is
written only in the branch where the archive file already exists (lines
169-175), and the entry merge is abandoned (entry construction `none`)
when any exception reaches line 212. -/
def mainRun (env : RunEnv) : RunOutcome :=
  let sorted := rankSortDesc env.stories
  match findValidStory sorted with
  | none => ⟨1, none, none, none, none, none⟩
  | some (i, chosen, text) =>
      let lp := imageLoop env.attemptEnvs
      match lp.accepted with
      | none => ⟨0, some (i, chosen, text), some text, some lp, none, none⟩
      | some (k, img) =>
          let mostRecent : Option Nat :=
            match env.priorMap with
            | some _ => some img
            | none => none
          let doc0 := env.priorMap.getD []
          match sorted[0]? with
          | none => ⟨0, some (i, chosen, text), some text, some lp, mostRecent, none⟩
          | some top =>
              match mkEntry top chosen env.summaryResult env.runStartTime k with
              | none => ⟨0, some (i, chosen, text), some text, some lp, mostRecent, none⟩
              | some entry =>
                  ⟨0, some (i, chosen, text), some text, some lp, mostRecent,
                    some (dictSet doc0 env.runDate (.obj entry))⟩

/-! ### Claim C2 -/

/-- C2: an attempt's image is accepted exactly when execution reaches the
score test with a parsed per-criterion score dict whose arithmetic mean is
strictly greater than the threshold (8.00): when the loop accepts at
attempt k, that attempt satisfies `attemptAccepts` (its mean is strictly
above the threshold), no earlier attempt does, the loop exits immediately
(exactly k attempts are performed), and the only image file persisted is
attempt k's bytes; when the loop never accepts, no attempt had an
above-threshold mean and no image file is persisted. -/
theorem C2_acceptance (envs : Nat → AttemptEnv) :
    (∀ k img, (imageLoop envs).accepted = some (k, img) →
       attemptAccepts (envs k) ∧ (envs k).genResult = some img ∧
       (imageLoop envs).attemptsMade = k ∧
       (imageLoop envs).savedImages = [(k, img)] ∧
       ∀ m, 1 ≤ m → m < k → ¬ attemptAccepts (envs m)) ∧
    ((imageLoop envs).accepted = none →
       (imageLoop envs).savedImages = [] ∧
       ∀ m, 1 ≤ m → m ≤ image_gen_attempts → ¬ attemptAccepts (envs m)) := by
  constructor
  · intro k img h
    obtain ⟨h1, h2, h3, h4, h5, h6, h7⟩ :=
      imageLoopAux_accept_spec envs image_gen_attempts 1 k img none h
    refine ⟨h5, h6, ?_, h4, fun m hm1 hm2 => h7 m hm1 hm2⟩
    show (imageLoopAux envs image_gen_attempts 1 none).attemptsMade = k
    rw [h3]; omega
  · intro h
    obtain ⟨h1, h2, h3⟩ := imageLoopAux_noaccept_spec envs image_gen_attempts 1 none h
    exact ⟨h2, fun m hm1 hm2 => h3 m hm1 (by unfold image_gen_attempts at hm2 ⊢; omega)⟩

def lowEnv : AttemptEnv := ⟨true, some 7, .parsed [("visual_appeal", 5)]⟩

def c2envs : Nat → AttemptEnv := fun k =>
  if k = 2 then ⟨true, some 42, .parsed [("visual_appeal", 9)]⟩ else lowEnv

theorem c2_step_low : attemptStep lowEnv = .lowScore [("visual_appeal", 5)] := by
  have h : ¬ overall_mean [("visual_appeal", 5)] > score_threshold := by
    norm_num [overall_mean, score_threshold]
  simp [attemptStep, lowEnv, h]

theorem c2_step_accept : attemptStep (c2envs 2) = .accepted 42 := by
  have h : overall_mean [("visual_appeal", 9)] > score_threshold := by
    norm_num [overall_mean, score_threshold]
  simp [attemptStep, c2envs, h]

theorem c2_loop_eval : imageLoop c2envs
    = ⟨[none, some [("visual_appeal", 5)]], 2, some (2, 42), [(2, 42)]⟩ := by
  have h1 : attemptStep (c2envs 1) = .lowScore [("visual_appeal", 5)] := by
    have : c2envs 1 = lowEnv := rfl
    rw [this, c2_step_low]
  show imageLoopAux c2envs (3 + 1 + 1) 1 none = _
  simp only [imageLoopAux, h1, show (1 : Nat) + 1 = 2 from rfl, c2_step_accept]

/-- Witness for C2: a run whose second attempt scores mean 9.00 is accepted
at attempt 2; attempt 1 (mean 5.00) did not accept, the loop stops after
exactly 2 attempts and persists exactly the accepted bytes. -/
theorem C2_acceptance_witness :
    attemptAccepts (c2envs 2) ∧ (c2envs 2).genResult = some 42 ∧
    (imageLoop c2envs).attemptsMade = 2 ∧
    (imageLoop c2envs).savedImages = [(2, 42)] ∧
    ∀ m, 1 ≤ m → m < 2 → ¬ attemptAccepts (c2envs m) :=
  (C2_acceptance c2envs).1 2 42 (by rw [c2_loop_eval])

/-! ### Claim C3 -/

/-- C3: when no attempt's validation produces a score dict with mean above
the threshold, the loop performs exactly 5 attempts (the budget), accepts
nothing, persists no image file, and the run writes neither the archive
entry nor the most-recent image copy. -/
theorem C3_budget_exhaustion (env : RunEnv)
    (hmean : ∀ k s, (env.attemptEnvs k).validation = .parsed s →
      overall_mean s ≤ score_threshold) :
    (imageLoop env.attemptEnvs).attemptsMade = 5 ∧
    (imageLoop env.attemptEnvs).accepted = none ∧
    (imageLoop env.attemptEnvs).savedImages = [] ∧
    (mainRun env).archiveDoc = none ∧
    (mainRun env).mostRecentWritten = none := by
  have hnone : (imageLoop env.attemptEnvs).accepted = none := by
    cases hacc : (imageLoop env.attemptEnvs).accepted with
    | none => rfl
    | some p =>
        obtain ⟨k, img⟩ := p
        obtain ⟨_, _, _, _, hacc2, _, _⟩ :=
          imageLoopAux_accept_spec env.attemptEnvs image_gen_attempts 1 k img none hacc
        obtain ⟨_, _, _, scores, hval, hm⟩ := hacc2
        exact absurd hm (not_lt.mpr (hmean k scores hval))
  obtain ⟨h1, h2, _⟩ := imageLoopAux_noaccept_spec env.attemptEnvs image_gen_attempts 1 none hnone
  refine ⟨h1, hnone, h2, ?_, ?_⟩ <;>
    rcases hfind : findValidStory (rankSortDesc env.stories) with _ | ⟨⟨i, chosen, text⟩⟩ <;>
      simp [mainRun, hfind, hnone]

def c3env : RunEnv := ⟨[], none, fun _ => lowEnv, none, "2025-01-01", "ts"⟩

/-- Witness for C3: with every attempt returning the constant mean 5.00
score dict, the loop runs all 5 attempts and nothing is persisted. -/
theorem C3_budget_exhaustion_witness :
    (imageLoop c3env.attemptEnvs).attemptsMade = 5 ∧
    (imageLoop c3env.attemptEnvs).accepted = none ∧
    (imageLoop c3env.attemptEnvs).savedImages = [] ∧
    (mainRun c3env).archiveDoc = none ∧
    (mainRun c3env).mostRecentWritten = none :=
  C3_budget_exhaustion c3env (by
    intro k s hval
    have hs : s = [("visual_appeal", 5)] := by
      have : (c3env.attemptEnvs k).validation = .parsed [("visual_appeal", 5)] := rfl
      rw [this] at hval
      cases hval
      rfl
    rw [hs]
    norm_num [overall_mean, score_threshold])

/-! ### Claim C5 -/

theorem attemptStep_errored_of {env : AttemptEnv}
    (h : env.genResult = none ∨ env.validation = .raised) :
    attemptStep env = .errored := by
  unfold attemptStep
  by_cases hp : env.promptOk = false
  · rw [if_pos hp]
  · rw [if_neg hp]
    rcases h with hg | hv
    · rw [hg]
    · cases hg : env.genResult with
      | none => rfl
      | some i => rw [hv]

theorem attemptStep_notDict_of {env : AttemptEnv} {i : Nat}
    (hp : env.promptOk = true) (hg : env.genResult = some i)
    (hv : env.validation = .nonDict) : attemptStep env = .notDict := by
  unfold attemptStep
  rw [if_neg (by rw [hp]; exact fun h => Bool.noConfusion h), hg, hv]

/-- C5 (amended): inside a performed, non-final attempt, a failure that
raises an exception (the generation call failing, or the validation call
raising before it can even return) resets the stored feedback to `None` —
the next attempt's prompt is built with no feedback; but when the
validation call fails by returning its non-dict error string, the stored
feedback is left unchanged from before the attempt, so the next prompt is
built from the previous feedback.  In both cases the attempt counter
advances and the loop continues (the trace has an entry at position
j + 1). -/
theorem C5_feedback_after_failure (envs : Nat → AttemptEnv) (j : Nat)
    (hperf : j + 1 < (imageLoop envs).promptFeedbacks.length) :
    ((envs (1 + j)).genResult = none ∨ (envs (1 + j)).validation = .raised →
       (imageLoop envs).promptFeedbacks[j + 1]? = some none) ∧
    (∀ i, (envs (1 + j)).promptOk = true → (envs (1 + j)).genResult = some i →
       (envs (1 + j)).validation = .nonDict →
       (imageLoop envs).promptFeedbacks[j + 1]? = (imageLoop envs).promptFeedbacks[j]?) := by
  obtain ⟨f, hf1, hf2⟩ := imageLoopAux_trace_step envs image_gen_attempts 1 j none hperf
  constructor
  · intro h
    have hstep : attemptStep (envs (1 + j)) = .errored := attemptStep_errored_of h
    show (imageLoopAux envs image_gen_attempts 1 none).promptFeedbacks[j + 1]? = some none
    rw [hf2]
    simp [nextFeedback, hstep]
  · intro i hp hg hv
    have hstep : attemptStep (envs (1 + j)) = .notDict := attemptStep_notDict_of hp hg hv
    show (imageLoopAux envs image_gen_attempts 1 none).promptFeedbacks[j + 1]?
      = (imageLoopAux envs image_gen_attempts 1 none).promptFeedbacks[j]?
    rw [hf2, hf1]
    simp [nextFeedback, hstep]

def c5errEnvs : Nat → AttemptEnv := fun _ => ⟨false, none, .raised⟩

/-- Witness for the amended C5 at a concrete input: every attempt raises,
so after attempt 1 the feedback for attempt 2 is `None`. -/
theorem C5_feedback_after_failure_witness :
    (imageLoop c5errEnvs).promptFeedbacks[0 + 1]? = some none :=
  (C5_feedback_after_failure c5errEnvs 0 (by decide)).1 (Or.inl rfl)

/-- The run refuting C5 as stated: attempt 1 returns the mean-5.00 score
dict `[("visual_appeal", 5)]` (feedback retained for attempt 2), attempt 2's
validation call fails and returns its error string (non-dict). -/
def c5envs : Nat → AttemptEnv := fun k =>
  if k = 1 then lowEnv else ⟨true, some 7, .nonDict⟩

theorem c5_loop_eval : imageLoop c5envs
    = ⟨[none, some [("visual_appeal", 5)], some [("visual_appeal", 5)],
        some [("visual_appeal", 5)], some [("visual_appeal", 5)]], 5, none, []⟩ := by
  have h1 : attemptStep (c5envs 1) = .lowScore [("visual_appeal", 5)] := by
    have : c5envs 1 = lowEnv := rfl
    rw [this, c2_step_low]
  have h2 : ∀ k, k ≠ 1 → attemptStep (c5envs k) = .notDict := by
    intro k hk
    have : c5envs k = ⟨true, some 7, .nonDict⟩ := by simp [c5envs, hk]
    rw [this]
    rfl
  show imageLoopAux c5envs (0 + 1 + 1 + 1 + 1 + 1) 1 none = _
  simp only [imageLoopAux, h1,
    h2 (1 + 1) (by omega), h2 (1 + 1 + 1) (by omega),
    h2 (1 + 1 + 1 + 1) (by omega), h2 (1 + 1 + 1 + 1 + 1) (by omega)]

/-- C5 counterexample: attempt 2 suffers a validation failure (the
validator returned its error string, not a dict), yet the feedback is not
reset — the prompt for attempt 3 is still built from attempt 1's score
dict, and since that dict scores `visual_appeal` below the threshold, the
attempt-3 prompt carries an improvement directive.  This refutes the claim
that after any validation failure the next prompt is built with no
feedback directives. -/
theorem C5_feedback_counterexample :
    (c5envs 2).validation = .nonDict ∧
    (imageLoop c5envs).promptFeedbacks[2]? = some (some [("visual_appeal", 5)]) ∧
    (create_image_gen_prompt "story"
      (formatted_feedback (some [("visual_appeal", 5)]))).improvementDirectives
      = ["Improve visual appeal"] := by
  refine ⟨rfl, by rw [c5_loop_eval]; simp, ?_⟩
  have h5 : ((5 : Rat) < score_threshold) = True := by
    norm_num [score_threshold]
  simp [create_image_gen_prompt, formatted_feedback, underscoreToSpace, h5]

/-! ### Claim C6 -/

/-- C6: the prompt builder adds the directive `"Improve <criterion>"`
exactly for the criteria of the previous attempt's feedback that scored
strictly below the threshold (8.00); with no feedback, or with no criterion
below the threshold, the prompt carries no improvement directives. -/
theorem C6_feedback_directives (story : String) (fb : Option Scores) :
    (∀ scores, fb = some scores → ∀ k v, (k, v) ∈ scores → v < score_threshold →
       ("Improve " ++ underscoreToSpace k)
         ∈ (create_image_gen_prompt story (formatted_feedback fb)).improvementDirectives) ∧
    (∀ d ∈ (create_image_gen_prompt story (formatted_feedback fb)).improvementDirectives,
       ∃ kv ∈ fb.getD [], kv.2 < score_threshold ∧ d = "Improve " ++ underscoreToSpace kv.1) ∧
    (fb = none →
       (create_image_gen_prompt story (formatted_feedback fb)).improvementDirectives = []) ∧
    (∀ scores, fb = some scores → (∀ kv ∈ scores, score_threshold ≤ kv.2) →
       (create_image_gen_prompt story (formatted_feedback fb)).improvementDirectives = []) := by
  cases fb with
  | none =>
      refine ⟨fun scores h => Option.noConfusion h, ?_, fun _ => rfl,
        fun scores h => Option.noConfusion h⟩
      intro d hd
      simp [create_image_gen_prompt, formatted_feedback] at hd
  | some scores =>
      by_cases hempty : scores = []
      · subst hempty
        refine ⟨?_, ?_, fun h => Option.noConfusion h, fun _ _ _ => rfl⟩
        · intro s h k v hmem
          obtain rfl : ([] : Scores) = s := Option.some.inj h
          cases hmem
        · intro d hd
          simp [create_image_gen_prompt, formatted_feedback] at hd
      · have hform : formatted_feedback (some scores)
            = some ((scores.filter fun kv => kv.2 < score_threshold).map
                fun kv => "Improve " ++ underscoreToSpace kv.1) := by
          simp [formatted_feedback, hempty]
        refine ⟨?_, ?_, fun h => Option.noConfusion h, ?_⟩
        · intro s h k v hmem hv
          obtain rfl : scores = s := Option.some.inj h
          rw [hform]
          simp only [create_image_gen_prompt, List.mem_map]
          exact ⟨(k, v), List.mem_filter.mpr ⟨hmem, by simpa using hv⟩, rfl⟩
        · intro d hd
          rw [hform] at hd
          simp only [create_image_gen_prompt, List.mem_map] at hd
          obtain ⟨kv, hkv, hdd⟩ := hd
          have := List.mem_filter.mp hkv
          exact ⟨kv, by simpa using this.1, by simpa using this.2, hdd.symm⟩
        · intro s h hall
          obtain rfl : scores = s := Option.some.inj h
          rw [hform]
          simp only [create_image_gen_prompt]
          rw [List.filter_eq_nil_iff.mpr, List.map_nil]
          intro kv hkv
          simpa using not_lt.mpr (hall kv hkv)

/-- Witness for C6: with feedback `{"visual_appeal": 5, "clarity": 9}`, the
criterion below 8.00 yields a directive in the prompt. -/
theorem C6_feedback_directives_witness :
    "Improve visual appeal" ∈ (create_image_gen_prompt "s"
      (formatted_feedback (some [("visual_appeal", 5), ("clarity", 9)]))).improvementDirectives :=
  (C6_feedback_directives "s" (some [("visual_appeal", 5), ("clarity", 9)])).1
    [("visual_appeal", 5), ("clarity", 9)] rfl "visual_appeal" 5
    (by simp) (by norm_num [score_threshold])

/-! ### Claim C7 -/

theorem mainRun_chosen_eq (env : RunEnv) (i : Nat) (st : StoryEnv) (text : String)
    (hfind : findValidStory (rankSortDesc env.stories) = some (i, st, text)) :
    (mainRun env).chosen = some (i, st, text) ∧ (mainRun env).summarizedText = some text := by
  rcases hacc : (imageLoop env.attemptEnvs).accepted with _ | ⟨k, img⟩
  · simp [mainRun, hfind, hacc]
  · rcases h0 : (rankSortDesc env.stories)[0]? with _ | top
    · simp [mainRun, hfind, hacc, h0]
    · rcases hent : mkEntry top st env.summaryResult env.runStartTime k with _ | entry
      · simp [mainRun, hfind, hacc, h0, hent]
      · simp [mainRun, hfind, hacc, h0, hent]

/-- C7 (amended): candidates are tried in descending rank order (the rank
sort is a descending-ordered permutation of the ranked stories), and the
chosen story is the first candidate, in that order, whose fetch returned
strictly more than 300 words of text and which passed content validation;
every earlier candidate failed fetching, the length test, or validation,
and the single summarization call is made on the chosen story's text
only. -/
theorem C7_story_selection (env : RunEnv) (i : Nat) (story : StoryEnv) (text : String)
    (hfind : findValidStory (rankSortDesc env.stories) = some (i, story, text)) :
    (rankSortDesc env.stories).Pairwise (fun a b => b.ranking ≤ a.ranking) ∧
    (rankSortDesc env.stories).Perm env.stories ∧
    (rankSortDesc env.stories)[i]? = some story ∧
    story.fetch = some text ∧ wordCount text > 300 ∧ story.valid = true ∧
    (∀ j, j < i → ∀ st', (rankSortDesc env.stories)[j]? = some st' → ¬ storyPasses st') ∧
    (mainRun env).summarizedText = some text ∧
    (mainRun env).chosen = some (i, story, text) := by
  obtain ⟨h1, h2, h3, h4, h5⟩ := findValidStory_spec (rankSortDesc env.stories) i story text hfind
  obtain ⟨hc, hs⟩ := mainRun_chosen_eq env i story text hfind
  refine ⟨?_, List.mergeSort_perm env.stories _, h1, h2, h3, h4, h5, hs, hc⟩
  have hsorted := @List.sorted_mergeSort _
    (fun a b : StoryEnv => decide (b.ranking ≤ a.ranking))
    (fun a b c hab hbc => by
      simp only [decide_eq_true_eq] at *
      exact le_trans hbc hab)
    (fun a b => by
      simp only [Bool.or_eq_true, decide_eq_true_eq]
      exact le_total b.ranking a.ranking)
    env.stories
  exact hsorted.imp fun h => by simpa using h

/-- A page body of exactly 300 words. -/
def w300 : String := String.mk ((List.replicate 300 'a').intersperse ' ')

/-- A page body of exactly 301 words. -/
def w301 : String := String.mk ((List.replicate 301 'a').intersperse ' ')

/-- A candidate whose page has exactly 300 words and passes content
validation. -/
def c7story : StoryEnv := ⟨5, [("url", .str "u")], some w300, true⟩

/-- C7 counterexample: a candidate whose fetched page contains exactly 300
words (at least 300, as the claim demands) and passes content validation is
nevertheless not selected — `main.py` line 77 requires strictly more than
300 words — so the selection loop finds no story at all. -/
theorem C7_selection_counterexample :
    wordCount w300 = 300 ∧ c7story.fetch = some w300 ∧ c7story.valid = true ∧
    findValidStory (rankSortDesc [c7story]) = none := by
  refine ⟨by decide, rfl, rfl, ?_⟩
  rw [show rankSortDesc [c7story] = [c7story] from List.mergeSort_singleton c7story]
  rfl

def c7w1 : StoryEnv := ⟨9, [("url", .str "u1")], none, true⟩

def c7w2 : StoryEnv := ⟨8, [("url", .str "u2")], some "too short", true⟩

def c7w3 : StoryEnv := ⟨7, [("url", .str "u3")], some w301, true⟩

def c7wenv : RunEnv := ⟨[c7w1, c7w2, c7w3], none, c5errEnvs, none, "2025-01-01", "ts"⟩

theorem c7wenv_sort : rankSortDesc c7wenv.stories = [c7w1, c7w2, c7w3] :=
  List.mergeSort_of_sorted (by decide)

/-- Witness for the amended C7: three candidates ranked 9, 8, 7 where the
first's fetch raises and the second's page is too short — the third is
chosen and is the one summarized. -/
theorem C7_story_selection_witness :
    (rankSortDesc c7wenv.stories).Pairwise (fun a b => b.ranking ≤ a.ranking) ∧
    (rankSortDesc c7wenv.stories).Perm c7wenv.stories ∧
    (rankSortDesc c7wenv.stories)[2]? = some c7w3 ∧
    c7w3.fetch = some w301 ∧ wordCount w301 > 300 ∧ c7w3.valid = true ∧
    (∀ j, j < 2 → ∀ st', (rankSortDesc c7wenv.stories)[j]? = some st' → ¬ storyPasses st') ∧
    (mainRun c7wenv).summarizedText = some w301 ∧
    (mainRun c7wenv).chosen = some (2, c7w3, w301) :=
  C7_story_selection c7wenv 2 c7w3 w301 (by rw [c7wenv_sort]; rfl)

/-! ### Claim C4 -/

theorem mkEntry_none_summary (top chosen : StoryEnv) (ts : String) (k : Nat) :
    mkEntry top chosen none ts k = none := by
  unfold mkEntry
  split
  · split
    · rfl
    · rfl
  · rfl

/-- C4 (amended): when no candidate yields usable validated content the run
exits with status 1 and writes no archive entry; but once a story is
chosen, the script always terminates with exit status 0 — in particular,
when no image attempt is accepted within the budget, or when summarization
yields no output, no archive entry is written, yet the process exit status
is 0, not non-zero. -/
theorem C4_fatal_outcomes (env : RunEnv) :
    (findValidStory (rankSortDesc env.stories) = none →
       (mainRun env).exitCode = 1 ∧ (mainRun env).archiveDoc = none) ∧
    (findValidStory (rankSortDesc env.stories) ≠ none → (mainRun env).exitCode = 0) ∧
    ((imageLoop env.attemptEnvs).accepted = none → (mainRun env).archiveDoc = none) ∧
    (env.summaryResult = none → (mainRun env).archiveDoc = none) := by
  refine ⟨?_, ?_, ?_, ?_⟩
  · intro h
    simp [mainRun, h]
  · intro h
    rcases hfind : findValidStory (rankSortDesc env.stories) with _ | ⟨⟨i, st, text⟩⟩
    · exact absurd hfind h
    · rcases hacc : (imageLoop env.attemptEnvs).accepted with _ | ⟨k, img⟩
      · simp [mainRun, hfind, hacc]
      · rcases h0 : (rankSortDesc env.stories)[0]? with _ | top
        · simp [mainRun, hfind, hacc, h0]
        · rcases hent : mkEntry top st env.summaryResult env.runStartTime k with _ | entry <;>
            simp [mainRun, hfind, hacc, h0, hent]
  · intro h
    rcases hfind : findValidStory (rankSortDesc env.stories) with _ | ⟨⟨i, st, text⟩⟩ <;>
      simp [mainRun, hfind, h]
  · intro h
    rcases hfind : findValidStory (rankSortDesc env.stories) with _ | ⟨⟨i, st, text⟩⟩
    · simp [mainRun, hfind]
    · rcases hacc : (imageLoop env.attemptEnvs).accepted with _ | ⟨k, img⟩
      · simp [mainRun, hfind, hacc]
      · rcases h0 : (rankSortDesc env.stories)[0]? with _ | top
        · simp [mainRun, hfind, hacc, h0]
        · simp [mainRun, hfind, hacc, h0, h, mkEntry_none_summary]

def c4noenv : RunEnv := ⟨[], none, c5errEnvs, none, "2025-01-01", "ts"⟩

/-- Witness for the amended C4 at a concrete input: with no usable
candidate at all, the run exits 1 and writes nothing. -/
theorem C4_fatal_outcomes_witness :
    (mainRun c4noenv).exitCode = 1 ∧ (mainRun c4noenv).archiveDoc = none :=
  (C4_fatal_outcomes c4noenv).1
    (by rw [show rankSortDesc c4noenv.stories = [] from List.mergeSort_nil]; rfl)

/-- The run refuting C4 as stated: one usable story, a summary, but every
image attempt fails, exhausting the budget. -/
def c4env : RunEnv :=
  ⟨[c7w3], some (.obj [("summary", .str "s")]), c5errEnvs, some [], "2025-01-01", "ts"⟩

/-- C4 counterexample: the image budget is exhausted without an accepted
attempt — a run-fatal condition — and indeed no archive entry is written,
but the process terminates with exit status 0 (the script simply falls off
the end of `main.py`), refuting "exit with a non-zero status". -/
theorem C4_exit_counterexample :
    (imageLoop c4env.attemptEnvs).accepted = none ∧
    (mainRun c4env).archiveDoc = none ∧
    (mainRun c4env).exitCode = 0 := by
  have haccnone : (imageLoop c4env.attemptEnvs).accepted = none := rfl
  have hfind : findValidStory (rankSortDesc c4env.stories) = some (0, c7w3, w301) := by
    rw [show rankSortDesc c4env.stories = [c7w3] from List.mergeSort_singleton c7w3]
    rfl
  refine ⟨haccnone, ?_, ?_⟩ <;> simp [mainRun, hfind, haccnone]

/-! ### Dictionary lemmas for the archive writer -/

theorem dictGet_dictSet_ne {d : List (String × Json)} {k1 k2 : String} {v : Json}
    (h : k1 ≠ k2) : dictGet (dictSet d k1 v) k2 = dictGet d k2 := by
  induction d with
  | nil => simp [dictSet, dictGet, List.find?, h]
  | cons kv rest ih =>
      unfold dictSet
      by_cases hk : kv.1 = k1
      · rw [if_pos hk]
        unfold dictGet
        rw [List.find?_cons, List.find?_cons]
        have h1 : (decide (k1 = k2)) = false := by simpa using h
        have h2 : (decide (kv.1 = k2)) = false := by simp [hk, h]
        rw [h1, h2]
      · rw [if_neg hk]
        unfold dictGet
        rw [List.find?_cons, List.find?_cons]
        by_cases hk2 : kv.1 = k2
        · rw [show (decide (kv.1 = k2)) = true by simpa using hk2]
        · rw [show (decide (kv.1 = k2)) = false by simpa using hk2]
          exact ih

theorem dictGet_dictMerge_of_absent {extra : List (String × Json)} {key : String}
    (h : ∀ kv ∈ extra, kv.1 ≠ key) :
    ∀ base : List (String × Json), dictGet (dictMerge base extra) key = dictGet base key := by
  induction extra with
  | nil => intro base; rfl
  | cons kv rest ih =>
      intro base
      show dictGet (dictMerge (dictSet base kv.1 kv.2) rest) key = dictGet base key
      rw [ih (fun kv' h' => h kv' (List.mem_cons_of_mem kv h'))]
      exact dictGet_dictSet_ne (h kv (List.mem_cons_self kv rest))

theorem dictGet_none_forall {d : List (String × Json)} {key : String}
    (h : dictGet d key = none) : ∀ kv ∈ d, kv.1 ≠ key := by
  intro kv hkv
  unfold dictGet at h
  have hf : d.find? (fun kv => decide (kv.1 = key)) = none := Option.map_eq_none'.mp h
  have := List.find?_eq_none.mp hf kv hkv
  simpa using this

theorem mkEntry_inversion {top chosen : StoryEnv} {summary : Option Json} {ts : String}
    {k : Nat} {entry : List (String × Json)}
    (h : mkEntry top chosen summary ts k = some entry) :
    ∃ ds fd sv uv, dictGet top.result "datePublished" = some (.str ds) ∧
      parseDisplayDate ds = some fd ∧
      (summary.bind fun s =>
        match s with
        | .obj fs => dictGet fs "summary"
        | _ => none) = some sv ∧
      dictGet chosen.result "url" = some uv ∧
      entry = dictMerge
        [("date", .str fd), ("image_path", .str (output_filename ts k)),
         ("story_summary", sv), ("story_url", uv)] chosen.result := by
  unfold mkEntry at h
  split at h
  · rename_i ds hds
    split at h
    · rename_i fd hfd
      split at h
      · rename_i sv hsv
        split at h
        · rename_i uv huv
          exact ⟨ds, fd, sv, uv, hds, hfd, hsv, huv, (Option.some.inj h).symm⟩
        · cases h
      · cases h
    · cases h
  · cases h

/-- Shared characterization of the archive block on an accepting run: the
entry is merged into the (possibly fresh) document under the run's date
key, while the most-recent image copy is written only when the archive
file already existed. -/
theorem mainRun_archive_helper (env : RunEnv) (i : Nat) (st : StoryEnv) (text : String)
    (k img : Nat) (top : StoryEnv) (entry : List (String × Json))
    (hfind : findValidStory (rankSortDesc env.stories) = some (i, st, text))
    (hacc : (imageLoop env.attemptEnvs).accepted = some (k, img))
    (htop : (rankSortDesc env.stories)[0]? = some top)
    (hent : mkEntry top st env.summaryResult env.runStartTime k = some entry) :
    (mainRun env).archiveDoc
      = some (dictSet (env.priorMap.getD []) env.runDate (.obj entry)) ∧
    (env.priorMap = none → (mainRun env).mostRecentWritten = none) ∧
    (∀ d, env.priorMap = some d → (mainRun env).mostRecentWritten = some img) := by
  refine ⟨by simp [mainRun, hfind, hacc, htop, hent], ?_, ?_⟩
  · intro hp
    simp [mainRun, hfind, hacc, htop, hent, hp]
  · intro d hp
    simp [mainRun, hfind, hacc, htop, hent, hp]

/-! ### Claim C9 -/

/-- C9 (amended): for an accepted image the run merges the entry into the
archive document under the run's date key — over the prior document when
one exists, into a fresh one otherwise — but the most-recent convenience
copy (`data/most-recent-image.png`) is written only when the archive
document already exists; when it does not, the copy is skipped. -/
theorem C9_archive_write (env : RunEnv) (i : Nat) (st : StoryEnv) (text : String)
    (k img : Nat) (top : StoryEnv) (entry : List (String × Json))
    (hfind : findValidStory (rankSortDesc env.stories) = some (i, st, text))
    (hacc : (imageLoop env.attemptEnvs).accepted = some (k, img))
    (htop : (rankSortDesc env.stories)[0]? = some top)
    (hent : mkEntry top st env.summaryResult env.runStartTime k = some entry) :
    (mainRun env).archiveDoc
      = some (dictSet (env.priorMap.getD []) env.runDate (.obj entry)) ∧
    (env.priorMap = none → (mainRun env).mostRecentWritten = none) ∧
    (∀ d, env.priorMap = some d → (mainRun env).mostRecentWritten = some img) :=
  mainRun_archive_helper env i st text k img top entry hfind hacc htop hent

def acceptEnv : AttemptEnv := ⟨true, some 42, .parsed [("visual_appeal", 9)]⟩

def acceptEnvs : Nat → AttemptEnv := fun _ => acceptEnv

theorem accept_loop_eval : imageLoop acceptEnvs = ⟨[none], 1, some (1, 42), [(1, 42)]⟩ := by
  have h : attemptStep (acceptEnvs 1) = .accepted 42 := by
    have hm : overall_mean [("visual_appeal", 9)] > score_threshold := by
      norm_num [overall_mean, score_threshold]
    simp [acceptEnvs, acceptEnv, attemptStep, hm]
  show imageLoopAux acceptEnvs (4 + 1) 1 none = _
  simp only [imageLoopAux, h]

/-- A candidate record carrying all six required fields with a parseable
publication date. -/
def candTop : List (String × Json) :=
  [("snippet", .str "sn"), ("url", .str "https://top"), ("isFamilyFriendly", .bool true),
   ("name", .str "Top"), ("datePublishedFreshnessText", .str "1h"),
   ("datePublished", .str "2024-03-05T10:15:30Z")]

def c9story : StoryEnv := ⟨9, candTop, some w301, true⟩

/-- The run refuting C9 as stated: an image is accepted but no archive
document exists yet. -/
def c9env : RunEnv :=
  ⟨[c9story], some (.obj [("summary", .str "sum")]), acceptEnvs, none, "2025-01-02", "ts"⟩

/-- C9 counterexample: with no prior archive document, an accepted image
still produces an archive entry, but the most-recent convenience copy is
NOT written — the write at `main.py` line 174 sits inside the
`if os.path.exists(map_file_path)` branch — refuting "regardless of the
prior state of the archive document (including when no archive document
exists yet)". -/
theorem C9_most_recent_counterexample :
    (imageLoop c9env.attemptEnvs).accepted = some (1, 42) ∧
    c9env.priorMap = none ∧
    (mainRun c9env).archiveDoc.isSome = true ∧
    (mainRun c9env).mostRecentWritten = none := by
  have hacc : (imageLoop c9env.attemptEnvs).accepted = some (1, 42) := by
    rw [show c9env.attemptEnvs = acceptEnvs from rfl, accept_loop_eval]
  have hfind : findValidStory (rankSortDesc c9env.stories) = some (0, c9story, w301) := by
    rw [show rankSortDesc c9env.stories = [c9story] from List.mergeSort_singleton c9story]
    rfl
  have htop : (rankSortDesc c9env.stories)[0]? = some c9story := by
    rw [show rankSortDesc c9env.stories = [c9story] from List.mergeSort_singleton c9story]
    rfl
  have hent : mkEntry c9story c9story c9env.summaryResult c9env.runStartTime 1
      = some ((mkEntry c9story c9story c9env.summaryResult c9env.runStartTime 1).getD []) := rfl
  obtain ⟨h1, h2, _⟩ := mainRun_archive_helper c9env 0 c9story w301 1 42 c9story _
    hfind hacc htop hent
  exact ⟨hacc, rfl, by rw [h1]; rfl, h2 rfl⟩

/-- The same run but with a pre-existing (empty) archive document. -/
def c9wenv : RunEnv :=
  ⟨[c9story], some (.obj [("summary", .str "sum")]), acceptEnvs, some [], "2025-01-02", "ts"⟩

/-- Witness for the amended C9: with a prior archive document present, the
accepted bytes are written both to the archive entry and to the
most-recent copy. -/
theorem C9_archive_write_witness :
    (mainRun c9wenv).archiveDoc
      = some (dictSet (c9wenv.priorMap.getD []) c9wenv.runDate
          (.obj ((mkEntry c9story c9story c9wenv.summaryResult c9wenv.runStartTime 1).getD []))) ∧
    (mainRun c9wenv).mostRecentWritten = some 42 := by
  have hacc : (imageLoop c9wenv.attemptEnvs).accepted = some (1, 42) := by
    rw [show c9wenv.attemptEnvs = acceptEnvs from rfl, accept_loop_eval]
  have hfind : findValidStory (rankSortDesc c9wenv.stories) = some (0, c9story, w301) := by
    rw [show rankSortDesc c9wenv.stories = [c9story] from List.mergeSort_singleton c9story]
    rfl
  have htop : (rankSortDesc c9wenv.stories)[0]? = some c9story := by
    rw [show rankSortDesc c9wenv.stories = [c9story] from List.mergeSort_singleton c9story]
    rfl
  obtain ⟨h1, _, h3⟩ := C9_archive_write c9wenv 0 c9story w301 1 42 c9story _
    hfind hacc htop rfl
  exact ⟨h1, h3 [] rfl⟩

/-! ### Claim C10 -/

/-- C10: in the archive entry, the displayed `date` field is parsed from
the `datePublished` of the highest-ranked candidate (position 0 of the
rank-sorted list), while `story_url` (and the merged fields) come from the
chosen story; consequently, whenever the chosen story is not the
top-ranked candidate, the displayed date comes from a different candidate
than the archived URL and fields. -/
theorem C10_entry_date_source (env : RunEnv) (i : Nat) (chosen : StoryEnv) (text : String)
    (k img : Nat) (top : StoryEnv) (entry : List (String × Json))
    (hfind : findValidStory (rankSortDesc env.stories) = some (i, chosen, text))
    (hacc : (imageLoop env.attemptEnvs).accepted = some (k, img))
    (htop : (rankSortDesc env.stories)[0]? = some top)
    (hent : mkEntry top chosen env.summaryResult env.runStartTime k = some entry)
    (hnodate : dictGet chosen.result "date" = none)
    (hnourl : dictGet chosen.result "story_url" = none)
    (hnd : (rankSortDesc env.stories).Nodup) :
    (∃ ds fd, dictGet top.result "datePublished" = some (.str ds) ∧
       parseDisplayDate ds = some fd ∧ dictGet entry "date" = some (.str fd)) ∧
    dictGet entry "story_url" = dictGet chosen.result "url" ∧
    (mainRun env).archiveDoc
      = some (dictSet (env.priorMap.getD []) env.runDate (.obj entry)) ∧
    (i ≠ 0 → top ≠ chosen) := by
  obtain ⟨ds, fd, sv, uv, hds, hfd, hsv, huv, hentry⟩ := mkEntry_inversion hent
  have harchive := (mainRun_archive_helper env i chosen text k img top entry
    hfind hacc htop hent).1
  refine ⟨⟨ds, fd, hds, hfd, ?_⟩, ?_, harchive, ?_⟩
  · rw [hentry, dictGet_dictMerge_of_absent (dictGet_none_forall hnodate)]
    rfl
  · rw [hentry, dictGet_dictMerge_of_absent (dictGet_none_forall hnourl), huv]
    rfl
  · intro hi heq
    have hchosen := (findValidStory_spec (rankSortDesc env.stories) i chosen text hfind).1
    have h0len : 0 < (rankSortDesc env.stories).length := by
      rcases List.getElem?_eq_some.mp htop with ⟨hl, _⟩
      exact hl
    have : (0 : Nat) = i := by
      refine List.getElem?_inj h0len hnd ?_
      rw [htop, hchosen, heq]
    exact hi this.symm

/-- The chosen (second-ranked) candidate's record for the C10 witness. -/
def candChosen : List (String × Json) :=
  [("snippet", .str "sc"), ("url", .str "https://chosen"), ("isFamilyFriendly", .bool true),
   ("name", .str "Chosen"), ("datePublishedFreshnessText", .str "2h"),
   ("datePublished", .str "2023-12-31")]

def c10s1 : StoryEnv := ⟨9, candTop, none, true⟩

def c10s2 : StoryEnv := ⟨8, candChosen, some w301, true⟩

def c10env : RunEnv :=
  ⟨[c10s1, c10s2], some (.obj [("summary", .str "sum")]), acceptEnvs, none, "2025-01-02", "ts"⟩

theorem c10env_sort : rankSortDesc c10env.stories = [c10s1, c10s2] :=
  List.mergeSort_of_sorted (by decide)

/-- Witness for C10: the top-ranked candidate's fetch raises so the
second-ranked one is chosen; the entry's date comes from the top
candidate's `datePublished` while its URL is the chosen candidate's. -/
theorem C10_entry_date_source_witness :
    (∃ ds fd, dictGet c10s1.result "datePublished" = some (.str ds) ∧
       parseDisplayDate ds = some fd ∧
       dictGet ((mkEntry c10s1 c10s2 c10env.summaryResult c10env.runStartTime 1).getD []) "date"
         = some (.str fd)) ∧
    dictGet ((mkEntry c10s1 c10s2 c10env.summaryResult c10env.runStartTime 1).getD []) "story_url"
      = dictGet c10s2.result "url" ∧
    (mainRun c10env).archiveDoc
      = some (dictSet (c10env.priorMap.getD []) c10env.runDate
          (.obj ((mkEntry c10s1 c10s2 c10env.summaryResult c10env.runStartTime 1).getD []))) ∧
    ((1 : Nat) ≠ 0 → c10s1 ≠ c10s2) := by
  have hfind : findValidStory (rankSortDesc c10env.stories) = some (1, c10s2, w301) := by
    rw [c10env_sort]
    rfl
  have hacc : (imageLoop c10env.attemptEnvs).accepted = some (1, 42) := by
    rw [show c10env.attemptEnvs = acceptEnvs from rfl, accept_loop_eval]
  have htop : (rankSortDesc c10env.stories)[0]? = some c10s1 := by
    rw [c10env_sort]
    rfl
  have hnd : (rankSortDesc c10env.stories).Nodup := by
    rw [c10env_sort]
    refine List.nodup_cons.mpr ⟨?_, List.nodup_singleton c10s2⟩
    intro hmem
    have heq : c10s1 = c10s2 := by simpa using hmem
    have : (9 : Rat) = 8 := congrArg StoryEnv.ranking heq
    norm_num at this
  exact C10_entry_date_source c10env 1 c10s2 w301 1 42 c10s1 _
    hfind hacc htop rfl rfl rfl hnd

end JoyfulBytes
